import Mathlib

/-!
Shallow embedding of the free-energy estimation engine of `hti.py`
(Hamiltonian thermodynamic integration for the dpti pipeline): stage-kind
integrand formulas, multi-stage composition, lambda-schedule endpoint
protection, the quadrature tail fix-up, refinement planning with result
reuse, and the MBAR (multistate reweighting) post-processing path.
Numeric values from the Python/numpy code are modelled as real numbers.
External collaborators that live in `lib/utils.py` (`parse_seq`,
`block_avg`, `integrate_range`, `compute_nrefine`) are modelled as opaque
function parameters or as already-applied inputs.
-/

namespace Hti

/-- The switching protocol selector (the `switch` argument of
`_gen_lammps_input`, `_make_tasks` and `_post_tasks`). -/
inductive Switch
  | one_step
  | two_step
  | three_step
deriving DecidableEq

/-- The stage kind (the `step` argument): `both` for the single-stage
protocol, otherwise one leg of a multi-stage protocol. -/
inductive Step
  | both
  | deep_on
  | spring_off
  | lj_on
deriving DecidableEq

/-- Embeds the integrand/error dispatch of `_post_tasks` (hti.py lines
714-737): given the switch, the step, one task's lambda and the per-atom
reduced energies `ed`, `es` with their statistical errors, it returns the
per-task integrand `de` and its propagated error `all_err`; the unknown
step/switch combinations raise `RuntimeError`. -/
noncomputable def stage_formula (switch : Switch) (step : Step)
    (lamb ed es ed_err es_err : ℝ) : Except String (ℝ × ℝ) :=
  match switch with
  | .one_step | .two_step =>
    match step with
    | .both => .ok (ed / lamb - es / (1 - lamb),
        Real.sqrt ((ed_err / lamb) ^ 2 + (es_err / (1 - lamb)) ^ 2))
    | .deep_on => .ok (ed / lamb, ed_err / lamb)
    | .spring_off => .ok (-es / (1 - lamb), es_err / (1 - lamb))
    | .lj_on => .error "unknow step"
  | .three_step =>
    match step with
    | .lj_on | .deep_on => .ok (ed, ed_err)
    | .spring_off => .ok (-es / (1 - lamb) + ed,
        Real.sqrt ((es_err / (1 - lamb)) ^ 2 + ed_err ^ 2))
    | .both => .error "unknow step"

/-- Embeds the two-stage composition of `post_tasks` (hti.py lines
628-631): free energies add, statistical errors combine in quadrature,
systematic errors add. -/
noncomputable def compose2 (e0 e1 : ℝ) (err0 err1 : ℝ × ℝ) : ℝ × ℝ × ℝ :=
  (e0 + e1, Real.sqrt (err0.1 ^ 2 + err1.1 ^ 2), err0.2 + err1.2)

/-- Embeds the three-stage composition of `post_tasks` (hti.py lines
658-661). -/
noncomputable def compose3 (e0 e1 e2 : ℝ) (err0 err1 err2 : ℝ × ℝ) :
    ℝ × ℝ × ℝ :=
  (e0 + e1 + e2, Real.sqrt (err0.1 ^ 2 + err1.1 ^ 2 + err2.1 ^ 2),
   err0.2 + err1.2 + err2.2)

/-- Embeds the schedule endpoint protection of `_make_tasks` (hti.py lines
413-416): if the first parsed lambda is exactly 0 it is incremented by
`protect_eps`, then if the last entry of the (possibly updated) sequence is
exactly 1 it is decremented by `protect_eps`. -/
noncomputable def protect_ends (all_lambda : List ℝ) (protect_eps : ℝ) :
    List ℝ :=
  let l1 := if all_lambda.getD 0 0 = 0
            then all_lambda.set 0 (all_lambda.getD 0 0 + protect_eps)
            else all_lambda
  if l1.getD (l1.length - 1) 0 = 1
  then l1.set (l1.length - 1) (l1.getD (l1.length - 1) 0 - protect_eps)
  else l1

/-- Last element of a numpy-style array (`a[-1]`), with the junk value 0
for the empty array (python raises there; the claims only use nonempty
arrays). -/
noncomputable def lastD (xs : List ℝ) : ℝ := xs.getD (xs.length - 1) 0

/-- Second-to-last element of a numpy-style array (`a[-2]`). -/
noncomputable def penultD (xs : List ℝ) : ℝ := xs.getD (xs.length - 2) 0

/-- Last two elements of a numpy-style array (`a[-2:]`). -/
def lastTwo (xs : List ℝ) : List ℝ := xs.drop (xs.length - 2)

/-- Result quadruple returned by `lib.utils.integrate_range` (an external
collaborator, not among the embedded sources): per-prefix cumulative
lambdas, cumulative integrals, systematic (discretization) errors and
propagated statistical errors. -/
structure IntegrateRangeResult where
  new_lambda : List ℝ
  i : List ℝ
  i_e : List ℝ
  s_e : List ℝ

/-- Embeds the quadrature integration and tail fix-up of `_post_tasks`
(hti.py lines 754-766), parameterised over the external `integrate_range`
collaborator: if the last cumulative lambda does not match the last
schedule lambda, the single tolerated case is landing on the second-to-last
lambda, in which case the final two-point sub-interval is integrated with
the trapezoidal rule (scheme string `t`) and the parts are combined;
any other mismatch raises `RuntimeError`. -/
noncomputable def post_tasks_integration
    (integrate_range : List ℝ → List ℝ → List ℝ → String →
      IntegrateRangeResult)
    (all_lambda de all_err : List ℝ) (scheme : String) :
    Except String (ℝ × ℝ × ℝ) :=
  let r := integrate_range all_lambda de all_err scheme
  if lastD r.new_lambda ≠ lastD all_lambda then
    if lastD r.new_lambda = penultD all_lambda then
      let r1 := integrate_range (lastTwo all_lambda) (lastTwo de)
                  (lastTwo all_err) "t"
      .ok (lastD r.i + lastD r1.i,
           Real.sqrt ((lastD r.s_e) ^ 2 + (lastD r1.s_e) ^ 2),
           lastD r.i_e + lastD r1.i_e)
    else .error "lambda does not match!"
  else .ok (lastD r.i, lastD r.s_e, lastD r.i_e)

/-- Embeds the refined-schedule and back-map construction of `refine_task`
(hti.py lines 535-545) as structural recursion over the remaining schedule
points; `ii` is the absolute index of the first remaining point. Each
interval contributes its left endpoint (back-mapped to its original index)
followed by `interval_nrefine[ii] - 1` evenly spaced new points
(back-mapped to the sentinel -1); the final point is appended with its own
index. The two junk cases (empty schedule, exhausted refine counts) raise
in python and are excluded by the theorems' hypotheses. -/
noncomputable def refine_loop : List ℝ → List ℕ → ℕ → List ℝ × List Int
  | [], _, _ => ([], [])
  | [t], _, ii => ([t], [(ii : Int)])
  | _ :: _ :: _, [], _ => ([], [])
  | t0 :: t1 :: ts, m :: ms, ii =>
    let hh := (t1 - t0) / (m : ℝ)
    let rest := refine_loop (t1 :: ts) ms (ii + 1)
    (t0 :: ((List.range' 1 (m - 1)).map fun (jj : ℕ) => t0 + (jj : ℝ) * hh)
        ++ rest.1,
     (ii : Int) :: List.replicate (m - 1) (-1) ++ rest.2)

/-- The refined schedule and back-map of `refine_task`, started at absolute
index 0 as in the python loop. -/
noncomputable def refine_schedule (all_t : List ℝ)
    (interval_nrefine : List ℕ) : List ℝ × List Int :=
  refine_loop all_t interval_nrefine 0

/-- Position of the original point of index `k` inside the refined
schedule: `k` plus the number of points inserted in the `k` preceding
intervals. -/
def origPos (ms : List ℕ) (k : ℕ) : ℕ :=
  k + ((ms.take k).map (· - 1)).sum

/-- Embeds the prior-result guard and planning prefix of `refine_task`
(hti.py lines 518-545): if `hti.out` is absent from the source task the
operation raises before any refined schedule is produced; otherwise the
lambda and integrand columns of the table are fed to the external
`compute_nrefine` collaborator and the refined schedule with its back-map
is generated. -/
noncomputable def refine_task_plan (hti_out : Option (List (ℝ × ℝ)))
    (err : ℝ) (compute_nrefine : List ℝ → List ℝ → ℝ → List ℕ) :
    Except String (List ℝ × List Int) :=
  match hti_out with
  | none => .error "cannot find hti.out, task should be computed befor refined"
  | some tbl =>
    let all_t := tbl.map Prod.fst
    let integrand := tbl.map Prod.snd
    let interval_nrefine := compute_nrefine all_t integrand err
    .ok (refine_schedule all_t interval_nrefine)

/-- A file-system fragment: maps a (task directory, file name) pair to the
stored file contents, `none` when the file does not exist. -/
def FS := String × String → Option String

/-- Write (or remove) one file. -/
def fsWrite (fs : FS) (key : String × String) (v : Option String) : FS :=
  fun p => if p = key then v else fs p

/-- Embeds the result-reuse loop of `refine_task` (hti.py lines 568-577):
for each refined task directory paired with its back-map entry (in order),
a negative (sentinel) entry is skipped; otherwise the files `data` and
`log.lammps` are copied from the back-mapped source task directory and the
source directory name is recorded in the new file `from.dir`.
`shutil.copyfile` is modelled as transferring the stored contents. -/
def copy_results (from_task_list : List String) :
    List (String × Int) → FS → FS
  | [], fs => fs
  | (dst, b) :: rest, fs =>
    if b < 0 then copy_results from_task_list rest fs
    else
      let src := from_task_list.getD b.toNat ""
      let fs1 := fsWrite fs (dst, "data") (fs (src, "data"))
      let fs2 := fsWrite fs1 (dst, "log.lammps") (fs1 (src, "log.lammps"))
      let fs3 := fsWrite fs2 (dst, "from.dir") (some src)
      copy_results from_task_list rest fs3

/-- The configuration dictionary fields of `in.json` that the schedule
planner reads; the lambda sequences are stored already parsed (the parsing
collaborator `parse_seq` lives in `lib/utils.py`). A `none` field models a
missing key (python raises `KeyError` on access). -/
structure JData where
  lambda : Option (List ℝ)
  lambda_deep_on : Option (List ℝ)
  lambda_spring_off : Option (List ℝ)
  lambda_lj_on : Option (List ℝ)
  protect_eps : ℝ
  switch : Option String
  reference : String

/-- Embeds the schedule-key selection and endpoint protection of
`_make_tasks` (hti.py lines 401-416): the one-step path reads the `lambda`
key; the two-step and three-step paths read the per-stage keys `lambda_deep_on`,
`lambda_spring_off`, `lambda_lj_on`; an unknown step raises. -/
noncomputable def make_tasks_schedule (jdata : JData) (switch : Switch)
    (step : Step) : Except String (List ℝ) := do
  let seq ←
    match switch, step with
    | .one_step, _ =>
      (jdata.lambda).elim (Except.error "KeyError: lambda") Except.ok
    | _, .deep_on =>
      (jdata.lambda_deep_on).elim
        (Except.error "KeyError: lambda_deep_on") Except.ok
    | _, .spring_off =>
      (jdata.lambda_spring_off).elim
        (Except.error "KeyError: lambda_spring_off") Except.ok
    | _, .lj_on =>
      (jdata.lambda_lj_on).elim
        (Except.error "KeyError: lambda_lj_on") Except.ok
    | _, .both => Except.error "unknown step"
  .ok (protect_ends seq jdata.protect_eps)

/-- Embeds the subtask dispatch of `make_tasks` (hti.py lines 356-391):
the one-step switch creates a single `both` stage in the task directory
itself; the two-step switch creates the `00.deep_on` and `01.spring_off`
subtask stages; the three-step switch creates `00.lj_on`, `01.deep_on` and
`02.spring_off`. Each entry records the stage directory, the step and the
protected lambda schedule. -/
noncomputable def make_tasks_plan (jdata : JData) (iter_name : String)
    (switch : Switch) :
    Except String (List (String × Step × List ℝ)) :=
  match switch with
  | .one_step => do
    let s ← make_tasks_schedule jdata .one_step .both
    .ok [(iter_name, .both, s)]
  | .two_step => do
    let s0 ← make_tasks_schedule jdata .two_step .deep_on
    let s1 ← make_tasks_schedule jdata .two_step .spring_off
    .ok [(iter_name ++ "/00.deep_on", .deep_on, s0),
         (iter_name ++ "/01.spring_off", .spring_off, s1)]
  | .three_step => do
    let s0 ← make_tasks_schedule jdata .three_step .lj_on
    let s1 ← make_tasks_schedule jdata .three_step .deep_on
    let s2 ← make_tasks_schedule jdata .three_step .spring_off
    .ok [(iter_name ++ "/00.lj_on", .lj_on, s0),
         (iter_name ++ "/01.deep_on", .deep_on, s1),
         (iter_name ++ "/02.spring_off", .spring_off, s2)]

/-- Embeds the regeneration step of `refine_task` (hti.py lines 547-559):
the refined schedule is stored under the `lambda` key of the new task's
configuration (whatever the originating run's protocol was) and
`make_tasks` is invoked without a switch argument, so its python default
`one-step` applies. -/
noncomputable def refine_task_regen (from_jdata : JData) (to_task : String)
    (refined_t : List ℝ) :
    JData × Except String (List (String × Step × List ℝ)) :=
  let to_jdata := { from_jdata with lambda := some refined_t }
  (to_jdata, make_tasks_plan to_jdata to_task .one_step)

/-- The exact SI value of `scipy.constants.electron_volt`. -/
noncomputable def electron_volt : ℝ := 1.602176634e-19

/-- The exact SI value of `scipy.constants.Boltzmann`. -/
noncomputable def boltzmann : ℝ := 1.380649e-23

/-- The bar times cubic-angstrom to eV conversion factor of
`_compute_thermo` (hti.py line 598). -/
noncomputable def unit_cvt : ℝ := 1e5 * (1e-10) ^ 3 / electron_volt

/-- The thermodynamic read-out record built by `_compute_thermo`. -/
structure ThermoInfo where
  p : ℝ
  p_err : ℝ
  v : ℝ
  v_err : ℝ
  e : ℝ
  e_err : ℝ
  h : ℝ
  h_err : ℝ
  t : ℝ
  t_err : ℝ
  pv : ℝ
  pv_err : ℝ

/-- Embeds the normalization performed by `_compute_thermo` (hti.py lines
580-601) on the block-averaged columns: the inputs are the mean/error
pairs produced by the external `block_avg` collaborator for the total
energy, enthalpy, temperature, pressure and volume columns; intensive
means are divided by the atom count while their errors are divided by the
square root of the atom count. -/
noncomputable def compute_thermo (ea ee ha he ta te pa pe va ve : ℝ)
    (natoms : ℝ) : ThermoInfo :=
  { p := pa
    p_err := pe
    v := va / natoms
    v_err := ve / Real.sqrt natoms
    e := ea / natoms
    e_err := ee / Real.sqrt natoms
    h := ha / natoms
    h_err := he / Real.sqrt natoms
    t := ta
    t_err := te
    pv := pa * va * unit_cvt / natoms
    pv_err := pe * va * unit_cvt / Real.sqrt natoms }

/-- Embeds the per-task normalization of `_post_tasks` (hti.py lines
695-700): the block-averaged spring and deep energies `sa`, `da` are
divided by the atom count, their statistical errors `se`, `de` by the
square root of the atom count. -/
noncomputable def normalize_task_obs (sa se da de natoms : ℝ) :
    ℝ × ℝ × ℝ × ℝ :=
  (sa / natoms, se / Real.sqrt natoms, da / natoms, de / Real.sqrt natoms)

/-- Embeds the report step of `_post_tasks_mbar` (hti.py lines 852-856):
the solver's free-energy difference matrix entry is divided by the atom
count and rescaled by kT, its uncertainty is divided by the square root of
the atom count and rescaled by kT. (In the source this code is only
reached if the loop above it succeeds; see `switch_style`.) -/
noncomputable def mbar_report (deltaf_0n ddeltaf_0n kt_in_ev natoms : ℝ) :
    ℝ × ℝ :=
  (deltaf_0n / natoms * kt_in_ev, ddeltaf_0n / Real.sqrt natoms * kt_in_ev)

/-- Python name resolution for the free variable `switch_style` read by the
dispatch of `_post_tasks_mbar` (hti.py lines 825, 831, 836, 841): the
function's parameters are named `switch` and `step`, and no global or
imported binding named `switch_style` exists anywhere in the module, so
evaluating the name raises `NameError`. -/
def switch_style : Except String String :=
  .error "NameError: switch_style is not defined"

/-- Embeds the reduced-potential rows one task contributes to the
multistate matrix in `_post_tasks_mbar` (hti.py lines 825-842), for a
given value of the dispatch string: one row per target lambda, built from
the task's retained reduced samples and its sampling lambda `lamb_k`. -/
noncomputable def mbar_task_block (sw : String) (this_ed this_es : List ℝ)
    (lamb_k : ℝ) (all_lambda : List ℝ) : Except String (List (List ℝ)) :=
  if sw = "both" then
    .ok (all_lambda.map fun ll =>
      (this_ed.zip this_es).map fun p =>
        p.1 / lamb_k * ll + p.2 / (1 - lamb_k) * (1 - ll))
  else if sw = "deep_on" then
    .ok (all_lambda.map fun ll => this_ed.map fun x => x / lamb_k * ll)
  else if sw = "spring_off" then
    .ok (all_lambda.map fun ll => this_es.map fun x =>
      x / (1 - lamb_k) * (1 - ll))
  else .error "unknown switch_style"

/-- Embeds the matrix-building loop of `_post_tasks_mbar` (hti.py lines
813-848): each task's raw deep/spring columns are divided by kT, the first
`stat_skip` samples are discarded, and the task's block of reduced
potentials is produced after dispatching on the (undefined) name
`switch_style`; the blocks' concatenation into the `ukn` matrix is kept as
a list of blocks. Tasks are paired with their sampling lambdas as the
python loop pairs `all_tasks` with `all_lambda`. -/
noncomputable def post_tasks_mbar_ukn (tasks : List (List ℝ × List ℝ))
    (all_lambda : List ℝ) (stat_skip : ℕ) (kt_in_ev : ℝ) :
    Except String (List (List (List ℝ))) :=
  (tasks.zip all_lambda).mapM fun tl =>
    let this_ed := (tl.1.1.map (· / kt_in_ev)).drop stat_skip
    let this_es := (tl.1.2.map (· / kt_in_ev)).drop stat_skip
    do
      let sw ← switch_style
      mbar_task_block sw this_ed this_es tl.2 all_lambda

/-- Test fixture, not part of the embedded sources: a mock
`integrate_range` collaborator used to evaluate the tail fix-up at a
concrete input. On the trapezoidal tail call (scheme `t`) it returns
cumulative integral 100 with systematic error 5 and statistical error 4;
on any other call it returns a two-point cumulative result ending at
lambda 1 with final integral 20, systematic error 2 and statistical
error 3. -/
noncomputable def mock_integrate_range :
    List ℝ → List ℝ → List ℝ → String → IntegrateRangeResult :=
  fun _ _ _ sch =>
    if sch = "t" then ⟨[1], [100], [5], [4]⟩
    else ⟨[0, 1], [10, 20], [1, 2], [2, 3]⟩

/-- Test fixture, not part of the embedded sources: a file system holding
raw simulation output `data` and `log.lammps` in a single source task
directory `src0`. -/
def mock_fs : FS :=
  fun p => if p = ("src0", "data") then some "D"
    else if p = ("src0", "log.lammps") then some "L" else none

/-! ### Helper lemmas -/

theorem getD_set_self (l : List ℝ) (i : ℕ) (a : ℝ) (h : i < l.length) :
    (l.set i a).getD i 0 = a := by
  simp [List.getD_eq_getElem?_getD, List.getElem?_set_self h]

theorem getD_set_ne (l : List ℝ) (i j : ℕ) (a : ℝ) (h : i ≠ j) :
    (l.set i a).getD j 0 = l.getD j 0 := by
  simp [List.getD_eq_getElem?_getD, List.getElem?_set_ne h]

/-! ### Claim theorems -/

/-- C1 counterexample: in a three-step run the `deep_on` per-task integrand
computed by `_post_tasks` is the raw `Ed`, not `Ed/λ`, and its error is the
raw `Ed_err`: at λ = 1/2, Ed = 1, Ed_err = 1 the code yields (1, 1) while
the claim demands (Ed/λ, Ed_err/λ) = (2, 2). -/
theorem c1_counterexample :
    stage_formula .three_step .deep_on (1/2) 1 0 1 0
      ≠ .ok (1 / (1/2 : ℝ), 1 / (1/2 : ℝ)) := by
  have h : stage_formula .three_step .deep_on (1/2) 1 0 1 0
      = .ok ((1 : ℝ), (1 : ℝ)) := rfl
  rw [h]
  simp only [ne_eq, Except.ok.injEq, Prod.mk.injEq, not_and]
  intro h1
  norm_num at h1

/-- C1 (amended): for a two-step run, the `deep_on` per-task integrand of
`_post_tasks` is `Ed/λ` with statistical error `Ed_err/λ`; for a
three-step run it is the raw `Ed` with statistical error `Ed_err`. -/
theorem c1_deep_on_integrand (lamb ed es ed_err es_err : ℝ) :
    stage_formula .two_step .deep_on lamb ed es ed_err es_err
      = .ok (ed / lamb, ed_err / lamb) ∧
    stage_formula .three_step .deep_on lamb ed es ed_err es_err
      = .ok (ed, ed_err) :=
  ⟨rfl, rfl⟩

/-- C4: the multi-stage compositions of `post_tasks` add the free
energies, combine the statistical errors as a quadrature (L2) sum and add
the systematic errors; in particular statistical errors 0.03 and 0.04
compose to 0.05 and systematic errors 0.001 and 0.002 compose to 0.003. -/
theorem c4_stage_composition :
    (∀ e0 e1 : ℝ, ∀ err0 err1 : ℝ × ℝ,
      compose2 e0 e1 err0 err1
        = (e0 + e1, Real.sqrt (err0.1 ^ 2 + err1.1 ^ 2),
           err0.2 + err1.2)) ∧
    (∀ e0 e1 e2 : ℝ, ∀ err0 err1 err2 : ℝ × ℝ,
      compose3 e0 e1 e2 err0 err1 err2
        = (e0 + e1 + e2,
           Real.sqrt (err0.1 ^ 2 + err1.1 ^ 2 + err2.1 ^ 2),
           err0.2 + err1.2 + err2.2)) ∧
    compose2 0 0 (0.03, 0.001) (0.04, 0.002) = (0, 0.05, 0.003) := by
  refine ⟨fun _ _ _ _ => rfl, fun _ _ _ _ _ _ => rfl, ?_⟩
  unfold compose2
  have h : ((0.03 : ℝ), (0.001 : ℝ)).1 ^ 2 + ((0.04 : ℝ), (0.002 : ℝ)).1 ^ 2
      = (0.05 : ℝ) ^ 2 := by norm_num
  rw [h, Real.sqrt_sq (by norm_num)]
  norm_num

/-- C5: for every parsed lambda sequence of length at least two (the
LambdaSchedule invariant), `_make_tasks` replaces a first value equal to 0
with `protect_eps`, replaces a last value equal to 1 with
`1 - protect_eps`, and leaves every other value (and the length)
unchanged. -/
theorem c5_endpoint_protection (l : List ℝ) (eps : ℝ)
    (h2 : 2 ≤ l.length) :
    (protect_ends l eps).length = l.length ∧
    (protect_ends l eps).getD 0 0
      = (if l.getD 0 0 = 0 then eps else l.getD 0 0) ∧
    (protect_ends l eps).getD (l.length - 1) 0
      = (if l.getD (l.length - 1) 0 = 1 then 1 - eps
         else l.getD (l.length - 1) 0) ∧
    ∀ i, 0 < i → i < l.length - 1 →
      (protect_ends l eps).getD i 0 = l.getD i 0 := by
  have h0 : 0 < l.length := by omega
  have hne01 : (0 : ℕ) ≠ l.length - 1 := by omega
  have hne10 : l.length - 1 ≠ (0 : ℕ) := by omega
  have hlt : l.length - 1 < l.length := by omega
  refine ⟨?_, ?_, ?_, ?_⟩
  · simp only [protect_ends]
    split_ifs <;> simp
  · simp only [protect_ends]
    by_cases c0 : l.getD 0 0 = 0
    · rw [if_pos c0, if_pos c0]
      simp only [List.length_set]
      have hset := getD_set_ne l 0 (l.length - 1) (l.getD 0 0 + eps) hne01
      by_cases c1 : (l.set 0 (l.getD 0 0 + eps)).getD (l.length - 1) 0 = 1
      · rw [if_pos c1, getD_set_ne _ (l.length - 1) 0 _ hne10,
          getD_set_self l 0 _ h0, c0, zero_add]
      · rw [if_neg c1, getD_set_self l 0 _ h0, c0, zero_add]
    · rw [if_neg c0, if_neg c0]
      by_cases c1 : l.getD (l.length - 1) 0 = 1
      · rw [if_pos c1, getD_set_ne _ (l.length - 1) 0 _ hne10]
      · rw [if_neg c1]
  · simp only [protect_ends]
    by_cases c0 : l.getD 0 0 = 0
    · rw [if_pos c0]
      simp only [List.length_set]
      have hset := getD_set_ne l 0 (l.length - 1) (l.getD 0 0 + eps) hne01
      rw [hset]
      by_cases c1 : l.getD (l.length - 1) 0 = 1
      · rw [if_pos c1, if_pos c1,
          getD_set_self _ (l.length - 1) _ (by rw [List.length_set]; exact hlt),
          c1]
      · rw [if_neg c1, if_neg c1, hset]
    · rw [if_neg c0]
      by_cases c1 : l.getD (l.length - 1) 0 = 1
      · rw [if_pos c1, if_pos c1, getD_set_self l (l.length - 1) _ hlt, c1]
      · rw [if_neg c1, if_neg c1]
  · intro i hi0 hi1
    simp only [protect_ends]
    have hi0' : (0 : ℕ) ≠ i := by omega
    have hin : l.length - 1 ≠ i := by omega
    by_cases c0 : l.getD 0 0 = 0
    · rw [if_pos c0]
      simp only [List.length_set]
      have hset := getD_set_ne l 0 (l.length - 1) (l.getD 0 0 + eps) hne01
      rw [hset]
      by_cases c1 : l.getD (l.length - 1) 0 = 1
      · rw [if_pos c1, getD_set_ne _ (l.length - 1) i _ hin,
          getD_set_ne l 0 i _ hi0']
      · rw [if_neg c1, getD_set_ne l 0 i _ hi0']
    · rw [if_neg c0]
      by_cases c1 : l.getD (l.length - 1) 0 = 1
      · rw [if_pos c1, getD_set_ne l (l.length - 1) i _ hin]
      · rw [if_neg c1]

/-- C5 witness: the schedule [0, 1/2, 1] with protect_eps = 1/1000000 has
length at least 2 and satisfies the conclusion of
`c5_endpoint_protection`. -/
theorem c5_endpoint_protection_witness :
    2 ≤ ([0, 1/2, 1] : List ℝ).length ∧
    (((protect_ends [0, 1/2, 1] (1/1000000)).length
        = ([0, 1/2, 1] : List ℝ).length) ∧
     ((protect_ends [0, 1/2, 1] (1/1000000)).getD 0 0
        = (if ([0, 1/2, 1] : List ℝ).getD 0 0 = 0 then 1/1000000
           else ([0, 1/2, 1] : List ℝ).getD 0 0)) ∧
     ((protect_ends [0, 1/2, 1] (1/1000000)).getD
          (([0, 1/2, 1] : List ℝ).length - 1) 0
        = (if ([0, 1/2, 1] : List ℝ).getD
              (([0, 1/2, 1] : List ℝ).length - 1) 0 = 1
           then 1 - 1/1000000
           else ([0, 1/2, 1] : List ℝ).getD
              (([0, 1/2, 1] : List ℝ).length - 1) 0)) ∧
     ∀ i, 0 < i → i < ([0, 1/2, 1] : List ℝ).length - 1 →
       (protect_ends [0, 1/2, 1] (1/1000000)).getD i 0
         = ([0, 1/2, 1] : List ℝ).getD i 0) :=
  ⟨by simp, c5_endpoint_protection [0, 1/2, 1] (1/1000000) (by simp)⟩

/-- C9: whatever protocol the originating stage recorded, `refine_task`
stores the refined schedule under the single `lambda` key (leaving the
per-stage keys untouched) and regenerates the new stage through the
default one-step path, producing a single `both` stage on the protected
refined schedule rather than a multi-stage subtask structure. -/
theorem c9_refine_regen_one_step (jd : JData) (to_task : String)
    (rt : List ℝ) :
    (refine_task_regen jd to_task rt).1.lambda = some rt ∧
    (refine_task_regen jd to_task rt).1.lambda_deep_on
      = jd.lambda_deep_on ∧
    (refine_task_regen jd to_task rt).1.lambda_spring_off
      = jd.lambda_spring_off ∧
    (refine_task_regen jd to_task rt).1.lambda_lj_on = jd.lambda_lj_on ∧
    (refine_task_regen jd to_task rt).2
      = .ok [(to_task, .both, protect_ends rt jd.protect_eps)] :=
  ⟨rfl, rfl, rfl, rfl, rfl⟩

/-- C3: when the cumulative quadrature result ends exactly at the
second-to-last schedule lambda rather than the last, `_post_tasks`
integrates the leftover final two-point sub-interval with the trapezoidal
rule (scheme `t`) and combines the parts with values adding, statistical
errors combining as an L2 norm and systematic errors adding; for any
other mismatch of the final lambdas it raises and produces no result. -/
theorem c3_tail_fixup
    (intr : List ℝ → List ℝ → List ℝ → String → IntegrateRangeResult)
    (all_lambda de all_err : List ℝ) (scheme : String) :
    (lastD (intr all_lambda de all_err scheme).new_lambda
        ≠ lastD all_lambda →
     lastD (intr all_lambda de all_err scheme).new_lambda
        = penultD all_lambda →
     post_tasks_integration intr all_lambda de all_err scheme
       = .ok (lastD (intr all_lambda de all_err scheme).i
                + lastD (intr (lastTwo all_lambda) (lastTwo de)
                    (lastTwo all_err) "t").i,
              Real.sqrt
                ((lastD (intr all_lambda de all_err scheme).s_e) ^ 2
                  + (lastD (intr (lastTwo all_lambda) (lastTwo de)
                      (lastTwo all_err) "t").s_e) ^ 2),
              lastD (intr all_lambda de all_err scheme).i_e
                + lastD (intr (lastTwo all_lambda) (lastTwo de)
                    (lastTwo all_err) "t").i_e)) ∧
    (lastD (intr all_lambda de all_err scheme).new_lambda
        ≠ lastD all_lambda →
     lastD (intr all_lambda de all_err scheme).new_lambda
        ≠ penultD all_lambda →
     post_tasks_integration intr all_lambda de all_err scheme
       = .error "lambda does not match!") := by
  constructor
  · intro h1 h2
    simp only [post_tasks_integration]
    rw [if_pos h1, if_pos h2]
  · intro h1 h2
    simp only [post_tasks_integration]
    rw [if_pos h1, if_neg h2]

/-- C3 witness: with the mock collaborator, on the schedule [0, 1, 2] the
cumulative result ends at the second-to-last lambda 1 and the combined
result is (20 + 100, sqrt(3^2 + 4^2), 2 + 5) = (120, 5, 7); on the
schedule [0, 5, 2] the cumulative result ends at 1, matching neither the
last nor the second-to-last lambda, and the estimator raises. -/
theorem c3_tail_fixup_witness :
    (lastD (mock_integrate_range [0, 1, 2] [0, 0, 0] [0, 0, 0]
        "s").new_lambda ≠ lastD [0, 1, 2] ∧
     lastD (mock_integrate_range [0, 1, 2] [0, 0, 0] [0, 0, 0]
        "s").new_lambda = penultD [0, 1, 2] ∧
     post_tasks_integration mock_integrate_range [0, 1, 2] [0, 0, 0]
        [0, 0, 0] "s" = .ok (120, 5, 7)) ∧
    (lastD (mock_integrate_range [0, 5, 2] [0, 0, 0] [0, 0, 0]
        "s").new_lambda ≠ lastD [0, 5, 2] ∧
     lastD (mock_integrate_range [0, 5, 2] [0, 0, 0] [0, 0, 0]
        "s").new_lambda ≠ penultD [0, 5, 2] ∧
     post_tasks_integration mock_integrate_range [0, 5, 2] [0, 0, 0]
        [0, 0, 0] "s" = .error "lambda does not match!") := by
  have hs : ∀ a b c : List ℝ, mock_integrate_range a b c "s"
      = ⟨[0, 1], [10, 20], [1, 2], [2, 3]⟩ := by
    intro a b c
    unfold mock_integrate_range
    rw [if_neg (by decide)]
  have ht : ∀ a b c : List ℝ, mock_integrate_range a b c "t"
      = ⟨[1], [100], [5], [4]⟩ := by
    intro a b c
    unfold mock_integrate_range
    rw [if_pos rfl]
  have h1 : lastD (mock_integrate_range [0, 1, 2] [0, 0, 0] [0, 0, 0]
      "s").new_lambda ≠ lastD ([0, 1, 2] : List ℝ) := by
    rw [hs]
    simp only [lastD]
    norm_num
  have h2 : lastD (mock_integrate_range [0, 1, 2] [0, 0, 0] [0, 0, 0]
      "s").new_lambda = penultD ([0, 1, 2] : List ℝ) := by
    rw [hs]
    simp only [lastD, penultD]
    norm_num
  have h3 : lastD (mock_integrate_range [0, 5, 2] [0, 0, 0] [0, 0, 0]
      "s").new_lambda ≠ lastD ([0, 5, 2] : List ℝ) := by
    rw [hs]
    simp only [lastD]
    norm_num
  have h4 : lastD (mock_integrate_range [0, 5, 2] [0, 0, 0] [0, 0, 0]
      "s").new_lambda ≠ penultD ([0, 5, 2] : List ℝ) := by
    rw [hs]
    simp only [lastD, penultD]
    norm_num
  refine ⟨⟨h1, h2, ?_⟩, ⟨h3, h4, ?_⟩⟩
  · rw [(c3_tail_fixup mock_integrate_range [0, 1, 2] [0, 0, 0] [0, 0, 0]
      "s").1 h1 h2]
    rw [hs, ht]
    simp only [lastD]
    norm_num
    rw [show (25 : ℝ) = 5 ^ 2 by norm_num, Real.sqrt_sq (by norm_num)]
  · exact (c3_tail_fixup mock_integrate_range [0, 5, 2] [0, 0, 0] [0, 0, 0]
      "s").2 h3 h4

/-- C8: refinement on a source task whose `hti.out` integration result is
missing fails before producing any refined schedule; with a prior result
present the guard is passed and the refined plan is produced. -/
theorem c8_missing_prior_result (err : ℝ)
    (cnr : List ℝ → List ℝ → ℝ → List ℕ) :
    refine_task_plan none err cnr
      = .error "cannot find hti.out, task should be computed befor refined" ∧
    ∀ tbl : List (ℝ × ℝ), refine_task_plan (some tbl) err cnr
      = .ok (refine_schedule (tbl.map Prod.fst)
          (cnr (tbl.map Prod.fst) (tbl.map Prod.snd) err)) :=
  ⟨rfl, fun _ => rfl⟩

/-- C10: in every per-atom reduction (the spring/deep terms of
`_post_tasks`, the energy, enthalpy, volume and PV terms of
`_compute_thermo`, and the MBAR uncertainty of `_post_tasks_mbar`), the
mean is divided by the atom count while the statistical error is divided
by the square root of the atom count, i.e. each reported error is
sqrt(natoms) times larger than 1/natoms scaling would give. -/
theorem c10_error_normalization
    (sa se da de ea ee ha he ta te pa pe va ve deltaf ddeltaf kt
      natoms : ℝ) (h : 0 < natoms) :
    normalize_task_obs sa se da de natoms
      = (sa / natoms, Real.sqrt natoms * (se / natoms),
         da / natoms, Real.sqrt natoms * (de / natoms)) ∧
    (compute_thermo ea ee ha he ta te pa pe va ve natoms).e
      = ea / natoms ∧
    (compute_thermo ea ee ha he ta te pa pe va ve natoms).e_err
      = Real.sqrt natoms * (ee / natoms) ∧
    (compute_thermo ea ee ha he ta te pa pe va ve natoms).h
      = ha / natoms ∧
    (compute_thermo ea ee ha he ta te pa pe va ve natoms).h_err
      = Real.sqrt natoms * (he / natoms) ∧
    (compute_thermo ea ee ha he ta te pa pe va ve natoms).v
      = va / natoms ∧
    (compute_thermo ea ee ha he ta te pa pe va ve natoms).v_err
      = Real.sqrt natoms * (ve / natoms) ∧
    (compute_thermo ea ee ha he ta te pa pe va ve natoms).pv
      = pa * va * unit_cvt / natoms ∧
    (compute_thermo ea ee ha he ta te pa pe va ve natoms).pv_err
      = Real.sqrt natoms * (pe * va * unit_cvt / natoms) ∧
    (mbar_report deltaf ddeltaf kt natoms).1 = deltaf / natoms * kt ∧
    (mbar_report deltaf ddeltaf kt natoms).2
      = Real.sqrt natoms * (ddeltaf / natoms) * kt := by
  have hsq : Real.sqrt natoms * Real.sqrt natoms = natoms :=
    Real.mul_self_sqrt h.le
  have hs0 : Real.sqrt natoms ≠ 0 :=
    ne_of_gt (Real.sqrt_pos.mpr h)
  have hn0 : natoms ≠ 0 := ne_of_gt h
  have key : ∀ x : ℝ, x / Real.sqrt natoms
      = Real.sqrt natoms * (x / natoms) := by
    intro x
    rw [div_eq_iff hs0]
    calc x = Real.sqrt natoms * Real.sqrt natoms * (x / natoms) := by
          rw [hsq, mul_comm natoms (x / natoms), div_mul_cancel₀ x hn0]
      _ = Real.sqrt natoms * (x / natoms) * Real.sqrt natoms := by ring
  refine ⟨?_, rfl, key ee, rfl, key he, rfl, key ve, rfl,
    key (pe * va * unit_cvt), rfl, ?_⟩
  · simp only [normalize_task_obs, key se, key de]
  · simp only [mbar_report, key ddeltaf]

/-- C10 witness: the normalization at natoms = 4 with all raw values 1. -/
theorem c10_error_normalization_witness :
    (0 : ℝ) < 4 ∧
    normalize_task_obs 1 1 1 1 4
      = (1 / 4, Real.sqrt 4 * (1 / 4), 1 / 4, Real.sqrt 4 * (1 / 4)) ∧
    (compute_thermo 1 1 1 1 1 1 1 1 1 1 4).e_err
      = Real.sqrt 4 * (1 / 4) ∧
    (mbar_report 1 1 1 4).2 = Real.sqrt 4 * (1 / 4) * 1 := by
  have h := c10_error_normalization 1 1 1 1 1 1 1 1 1 1 1 1 1 1 1 1 1 4
    (by norm_num)
  exact ⟨by norm_num, h.1, h.2.2.1, h.2.2.2.2.2.2.2.2.2.2⟩

/-- C2 (code bug): for any MBAR post-processing run with at least one task
and one lambda state, the matrix-building loop of `_post_tasks_mbar`
fails with the NameError raised by the undefined dispatch name
`switch_style` (the function's parameters are `switch` and `step`), so
the claimed construction of the reduced multistate energy matrix and the
MBAR solve are never reached. -/
theorem c2_mbar_switch_style_name_error (t : List ℝ × List ℝ)
    (rest : List (List ℝ × List ℝ)) (l0 : ℝ) (ls : List ℝ)
    (stat_skip : ℕ) (kt : ℝ) :
    post_tasks_mbar_ukn (t :: rest) (l0 :: ls) stat_skip kt
      = .error "NameError: switch_style is not defined" := rfl

/-! ### Refinement schedule lemmas (for C6) -/

theorem refine_loop_cons (t0 t1 : ℝ) (ts : List ℝ) (m : ℕ) (ms : List ℕ)
    (ii : ℕ) :
    refine_loop (t0 :: t1 :: ts) (m :: ms) ii
      = (t0 :: (((List.range' 1 (m - 1)).map fun (jj : ℕ) =>
            t0 + (jj : ℝ) * ((t1 - t0) / (m : ℝ)))
          ++ (refine_loop (t1 :: ts) ms (ii + 1)).1),
         (ii : Int) :: (List.replicate (m - 1) (-1)
          ++ (refine_loop (t1 :: ts) ms (ii + 1)).2)) := rfl

theorem origPos_zero (ms : List ℕ) : origPos ms 0 = 0 := by
  simp [origPos]

theorem origPos_cons_succ (m : ℕ) (ms : List ℕ) (k : ℕ) (hm : 1 ≤ m) :
    origPos (m :: ms) (k + 1) = m + origPos ms k := by
  simp only [origPos, List.take_succ_cons, List.map_cons, List.sum_cons]
  omega

theorem refine_loop_lengths : ∀ (ts : List ℝ) (ms : List ℕ) (ii : ℕ),
    ms.length + 1 = ts.length →
    (refine_loop ts ms ii).1.length = ts.length + (ms.map (· - 1)).sum ∧
    (refine_loop ts ms ii).2.length = ts.length + (ms.map (· - 1)).sum
  | [], _, _, h => by simp at h
  | [t], ms, ii, h => by
    have hms : ms = [] := by
      cases ms with
      | nil => rfl
      | cons a l => simp at h
    subst hms
    simp [refine_loop]
  | t0 :: t1 :: ts, [], ii, h => by simp at h
  | t0 :: t1 :: ts, m :: ms, ii, h => by
    have ih := refine_loop_lengths (t1 :: ts) ms (ii + 1) (by
      simp only [List.length_cons] at h ⊢
      omega)
    rw [refine_loop_cons]
    simp only [List.length_cons, List.length_append, List.length_map,
      List.length_range', List.length_replicate, List.map_cons,
      List.sum_cons] at *
    omega

theorem refine_loop_orig : ∀ (ts : List ℝ) (ms : List ℕ) (ii : ℕ),
    ms.length + 1 = ts.length →
    (∀ m ∈ ms, 1 ≤ m) →
    ∀ k, k < ts.length →
      (refine_loop ts ms ii).2[origPos ms k]? = some ((ii + k : ℕ) : Int) ∧
      (refine_loop ts ms ii).1[origPos ms k]? = ts[k]?
  | [], _, _, h, _, _, hk => by simp at h
  | [t], ms, ii, h, _, k, hk => by
    have hms : ms = [] := by
      cases ms with
      | nil => rfl
      | cons a l => simp at h
    subst hms
    have hk0 : k = 0 := by
      simp only [List.length_cons, List.length_nil] at hk
      omega
    subst hk0
    simp [refine_loop, origPos_zero]
  | t0 :: t1 :: ts, [], ii, h, _, k, hk => by simp at h
  | t0 :: t1 :: ts, m :: ms, ii, h, hpos, k, hk => by
    have hm : 1 ≤ m := hpos m (List.mem_cons_self m ms)
    have hpos' : ∀ x ∈ ms, 1 ≤ x := fun x hx =>
      hpos x (List.mem_cons_of_mem m hx)
    have hlen' : ms.length + 1 = (t1 :: ts).length := by
      simp only [List.length_cons] at h ⊢
      omega
    rw [refine_loop_cons]
    cases k with
    | zero =>
      rw [origPos_zero]
      simp
    | succ k =>
      have hk' : k < (t1 :: ts).length := by
        simp only [List.length_cons] at hk ⊢
        omega
      have ih := refine_loop_orig (t1 :: ts) ms (ii + 1) hlen' hpos' k hk'
      have hidx : origPos (m :: ms) (k + 1)
          = (m - 1 + origPos ms k) + 1 := by
        rw [origPos_cons_succ m ms k hm]
        omega
      rw [hidx]
      constructor
      · rw [List.getElem?_cons_succ,
          List.getElem?_append_right (by
            simp only [List.length_replicate]
            omega)]
        simp only [List.length_replicate, Nat.add_sub_cancel_left]
        rw [ih.1]
        congr 2
        omega
      · rw [List.getElem?_cons_succ,
          List.getElem?_append_right (by
            simp only [List.length_map, List.length_range']
            omega)]
        simp only [List.length_map, List.length_range',
          Nat.add_sub_cancel_left]
        rw [ih.2]
        rw [List.getElem?_cons_succ]

theorem refine_loop_sentinel : ∀ (ts : List ℝ) (ms : List ℕ) (ii : ℕ),
    ms.length + 1 = ts.length →
    (∀ m ∈ ms, 1 ≤ m) →
    ∀ p v, (refine_loop ts ms ii).2[p]? = some v → v ≠ -1 →
      ∃ k, k < ts.length ∧ v = ((ii + k : ℕ) : Int) ∧ p = origPos ms k
  | [], _, _, h, _, _, _, _, _ => by simp at h
  | [t], ms, ii, h, _, p, v, hpv, hv => by
    have hms : ms = [] := by
      cases ms with
      | nil => rfl
      | cons a l => simp at h
    subst hms
    cases p with
    | zero =>
      refine ⟨0, by simp, ?_, by rw [origPos_zero]⟩
      simp only [refine_loop, List.getElem?_cons_zero,
        Option.some.injEq] at hpv
      omega
    | succ q =>
      simp only [refine_loop, List.getElem?_cons_succ,
        List.getElem?_nil] at hpv
      exact Option.noConfusion hpv
  | t0 :: t1 :: ts, [], ii, h, _, p, v, hpv, hv => by simp at h
  | t0 :: t1 :: ts, m :: ms, ii, h, hpos, p, v, hpv, hv => by
    have hm : 1 ≤ m := hpos m (List.mem_cons_self m ms)
    have hpos' : ∀ x ∈ ms, 1 ≤ x := fun x hx =>
      hpos x (List.mem_cons_of_mem m hx)
    have hlen' : ms.length + 1 = (t1 :: ts).length := by
      simp only [List.length_cons] at h ⊢
      omega
    rw [refine_loop_cons] at hpv
    cases p with
    | zero =>
      refine ⟨0, by simp, ?_, by rw [origPos_zero]⟩
      simp only [List.getElem?_cons_zero, Option.some.injEq] at hpv
      omega
    | succ q =>
      rw [List.getElem?_cons_succ] at hpv
      by_cases hq : q < m - 1
      · rw [List.getElem?_append_left (by
            simp only [List.length_replicate]
            exact hq)] at hpv
        rw [List.getElem?_replicate_of_lt hq] at hpv
        exact absurd (Option.some.inj hpv).symm hv
      · rw [List.getElem?_append_right (by
            simp only [List.length_replicate]
            omega)] at hpv
        simp only [List.length_replicate] at hpv
        obtain ⟨k, hk, hvk, hpk⟩ :=
          refine_loop_sentinel (t1 :: ts) ms (ii + 1) hlen' hpos'
            (q - (m - 1)) v hpv hv
        refine ⟨k + 1, ?_, ?_, ?_⟩
        · simp only [List.length_cons] at hk ⊢
          omega
        · rw [hvk]
          congr 1
          omega
        · rw [origPos_cons_succ m ms k hm]
          omega

/-- C6: for a refinement of an n-point schedule with per-interval
subdivision counts all at least 1, the refined schedule has exactly
n + sum of (count - 1) points, the back-map has the same length, every
original point of index k sits at refined position k plus the number of
previously inserted points with back-map entry exactly k and the original
lambda value, and every other (inserted) position has the sentinel
back-map entry -1. -/
theorem c6_refinement_schedule (all_t : List ℝ) (ms : List ℕ)
    (hlen : ms.length + 1 = all_t.length)
    (hpos : ∀ m ∈ ms, 1 ≤ m) :
    (refine_schedule all_t ms).1.length
      = all_t.length + (ms.map (· - 1)).sum ∧
    (refine_schedule all_t ms).2.length
      = (refine_schedule all_t ms).1.length ∧
    (∀ k, k < all_t.length →
      (refine_schedule all_t ms).2[origPos ms k]? = some (k : Int) ∧
      (refine_schedule all_t ms).1[origPos ms k]? = all_t[k]?) ∧
    (∀ p v, (refine_schedule all_t ms).2[p]? = some v → v ≠ -1 →
      ∃ k, k < all_t.length ∧ v = (k : Int) ∧ p = origPos ms k) ∧
    (∀ p, p < (refine_schedule all_t ms).2.length →
      (∀ k, k < all_t.length → p ≠ origPos ms k) →
      (refine_schedule all_t ms).2[p]? = some (-1)) := by
  have hl := refine_loop_lengths all_t ms 0 hlen
  have ho := refine_loop_orig all_t ms 0 hlen hpos
  have hsent := refine_loop_sentinel all_t ms 0 hlen hpos
  simp only [refine_schedule]
  refine ⟨hl.1, by rw [hl.1, hl.2], ?_, ?_, ?_⟩
  · intro k hk
    have := ho k hk
    simpa using this
  · intro p v hpv hv
    obtain ⟨k, hk, hv', hp⟩ := hsent p v hpv hv
    exact ⟨k, hk, by simpa using hv', hp⟩
  · intro p hp hnot
    have hsome : (refine_loop all_t ms 0).2[p]?
        = some ((refine_loop all_t ms 0).2.get ⟨p, hp⟩) :=
      List.getElem?_eq_getElem hp
    by_cases hv : (refine_loop all_t ms 0).2.get ⟨p, hp⟩ = -1
    · rw [hsome, hv]
    · obtain ⟨k, hk, _, hpk⟩ := hsent p _ hsome hv
      exact absurd hpk (hnot k hk)

/-- C6 witness: the schedule [0, 1/2, 1] with subdivision counts [2, 1]
satisfies the hypotheses and the conclusion of
`c6_refinement_schedule`. -/
theorem c6_refinement_schedule_witness :
    (([2, 1] : List ℕ).length + 1 = ([0, 1/2, 1] : List ℝ).length ∧
     ∀ m ∈ ([2, 1] : List ℕ), 1 ≤ m) ∧
    ((refine_schedule [0, 1/2, 1] [2, 1]).1.length
      = ([0, 1/2, 1] : List ℝ).length + (([2, 1] : List ℕ).map (· - 1)).sum ∧
    (refine_schedule [0, 1/2, 1] [2, 1]).2.length
      = (refine_schedule [0, 1/2, 1] [2, 1]).1.length ∧
    (∀ k, k < ([0, 1/2, 1] : List ℝ).length →
      (refine_schedule [0, 1/2, 1] [2, 1]).2[origPos [2, 1] k]?
        = some (k : Int) ∧
      (refine_schedule [0, 1/2, 1] [2, 1]).1[origPos [2, 1] k]?
        = ([0, 1/2, 1] : List ℝ)[k]?) ∧
    (∀ p v, (refine_schedule [0, 1/2, 1] [2, 1]).2[p]? = some v → v ≠ -1 →
      ∃ k, k < ([0, 1/2, 1] : List ℝ).length ∧ v = (k : Int) ∧
        p = origPos [2, 1] k) ∧
    (∀ p, p < (refine_schedule [0, 1/2, 1] [2, 1]).2.length →
      (∀ k, k < ([0, 1/2, 1] : List ℝ).length → p ≠ origPos [2, 1] k) →
      (refine_schedule [0, 1/2, 1] [2, 1]).2[p]? = some (-1))) :=
  ⟨⟨by simp, by decide⟩,
   c6_refinement_schedule [0, 1/2, 1] [2, 1] (by simp) (by decide)⟩

/-! ### Result-reuse lemmas (for C7) -/

theorem fsWrite_self (fs : FS) (key : String × String)
    (v : Option String) : fsWrite fs key v key = v := by
  simp [fsWrite]

theorem fsWrite_ne (fs : FS) (key : String × String) (v : Option String)
    (p : String × String) (h : p ≠ key) : fsWrite fs key v p = fs p := by
  simp [fsWrite, h]

theorem copy_results_cons (fl : List String) (dst : String) (b : Int)
    (rest : List (String × Int)) (fs : FS) :
    copy_results fl ((dst, b) :: rest) fs
      = if b < 0 then copy_results fl rest fs
        else
          copy_results fl rest
            (fsWrite
              (fsWrite
                (fsWrite fs (dst, "data")
                  (fs (fl.getD b.toNat "", "data")))
                (dst, "log.lammps")
                ((fsWrite fs (dst, "data")
                  (fs (fl.getD b.toNat "", "data")))
                    (fl.getD b.toNat "", "log.lammps")))
              (dst, "from.dir") (some (fl.getD b.toNat ""))) := rfl

theorem copy_results_frame (fl : List String)
    (pairs : List (String × Int)) (fs : FS) (d f : String)
    (hd : ∀ pr ∈ pairs, 0 ≤ pr.2 → d ≠ pr.1) :
    copy_results fl pairs fs (d, f) = fs (d, f) := by
  induction pairs generalizing fs with
  | nil => rfl
  | cons pr rest ih =>
    obtain ⟨dst, b⟩ := pr
    have hd' : ∀ q ∈ rest, 0 ≤ q.2 → d ≠ q.1 := fun q hq hq2 =>
      hd q (List.mem_cons_of_mem _ hq) hq2
    by_cases hb : b < 0
    · rw [copy_results_cons, if_pos hb]
      exact ih fs hd'
    · have hdd : d ≠ dst :=
        hd (dst, b) (List.mem_cons_self _ _) (by omega)
      rw [copy_results_cons, if_neg hb, ih _ hd',
        fsWrite_ne _ _ _ _ (by simp [hdd]),
        fsWrite_ne _ _ _ _ (by simp [hdd]),
        fsWrite_ne _ _ _ _ (by simp [hdd])]

theorem copy_results_copies (fl : List String) (fs0 : FS) :
    ∀ (pairs : List (String × Int)) (fs : FS),
    (∀ s ∈ fl, ∀ f, fs (s, f) = fs0 (s, f)) →
    (pairs.map Prod.fst).Nodup →
    (∀ pr ∈ pairs, pr.1 ∉ fl) →
    (∀ pr ∈ pairs, 0 ≤ pr.2 → pr.2.toNat < fl.length) →
    ∀ pr ∈ pairs, 0 ≤ pr.2 →
      copy_results fl pairs fs (pr.1, "data")
          = fs0 (fl.getD pr.2.toNat "", "data") ∧
      copy_results fl pairs fs (pr.1, "log.lammps")
          = fs0 (fl.getD pr.2.toNat "", "log.lammps") ∧
      copy_results fl pairs fs (pr.1, "from.dir")
          = some (fl.getD pr.2.toNat "")
  | [], _, _, _, _, _, pr, hpr, _ => absurd hpr (List.not_mem_nil pr)
  | (dst, b) :: rest, fs, hagree, hnodup, hdisj, hrange, pr, hpr, hprb => by
    have hnodup' : (rest.map Prod.fst).Nodup := by
      simp only [List.map_cons, List.nodup_cons] at hnodup
      exact hnodup.2
    have hdstnot : dst ∉ rest.map Prod.fst := by
      simp only [List.map_cons, List.nodup_cons] at hnodup
      exact hnodup.1
    have hdisj' : ∀ q ∈ rest, q.1 ∉ fl := fun q hq =>
      hdisj q (List.mem_cons_of_mem _ hq)
    have hrange' : ∀ q ∈ rest, 0 ≤ q.2 → q.2.toNat < fl.length :=
      fun q hq => hrange q (List.mem_cons_of_mem _ hq)
    by_cases hb : b < 0
    · have hpr' : pr ∈ rest := by
        rcases List.mem_cons.mp hpr with heq | h
        · subst heq
          simp only at hprb
          omega
        · exact h
      rw [copy_results_cons, if_pos hb]
      exact copy_results_copies fl fs0 rest fs hagree hnodup' hdisj'
        hrange' pr hpr' hprb
    · have hb0 : (0 : Int) ≤ b := by omega
      have hblt : b.toNat < fl.length :=
        hrange (dst, b) (List.mem_cons_self _ _) hb0
      have hsrcmem : fl.getD b.toNat "" ∈ fl := by
        rw [List.getD_eq_getElem fl "" hblt]
        exact List.getElem_mem _
      have hdstfl : dst ∉ fl := hdisj (dst, b) (List.mem_cons_self _ _)
      have hsrcdst : fl.getD b.toNat "" ≠ dst := fun hEq =>
        hdstfl (hEq ▸ hsrcmem)
      rw [copy_results_cons, if_neg hb]
      have hagree3 : ∀ s ∈ fl, ∀ f,
          (fsWrite
            (fsWrite
              (fsWrite fs (dst, "data")
                (fs (fl.getD b.toNat "", "data")))
              (dst, "log.lammps")
              ((fsWrite fs (dst, "data")
                (fs (fl.getD b.toNat "", "data")))
                  (fl.getD b.toNat "", "log.lammps")))
            (dst, "from.dir") (some (fl.getD b.toNat ""))) (s, f)
          = fs0 (s, f) := by
        intro s hs f
        have hsdst : s ≠ dst := fun hEq => hdstfl (hEq ▸ hs)
        rw [fsWrite_ne _ _ _ _ (by simp [hsdst]),
          fsWrite_ne _ _ _ _ (by simp [hsdst]),
          fsWrite_ne _ _ _ _ (by simp [hsdst])]
        exact hagree s hs f
      rcases List.mem_cons.mp hpr with heq | hpr'
      · subst heq
        have hframe : ∀ f, copy_results fl rest
            (fsWrite
              (fsWrite
                (fsWrite fs (dst, "data")
                  (fs (fl.getD b.toNat "", "data")))
                (dst, "log.lammps")
                ((fsWrite fs (dst, "data")
                  (fs (fl.getD b.toNat "", "data")))
                    (fl.getD b.toNat "", "log.lammps")))
              (dst, "from.dir") (some (fl.getD b.toNat ""))) (dst, f)
            = (fsWrite
              (fsWrite
                (fsWrite fs (dst, "data")
                  (fs (fl.getD b.toNat "", "data")))
                (dst, "log.lammps")
                ((fsWrite fs (dst, "data")
                  (fs (fl.getD b.toNat "", "data")))
                    (fl.getD b.toNat "", "log.lammps")))
              (dst, "from.dir") (some (fl.getD b.toNat ""))) (dst, f) := by
          intro f
          refine copy_results_frame fl rest _ dst f ?_
          intro q hq _ hEq
          exact hdstnot (hEq ▸ List.mem_map_of_mem Prod.fst hq)
        refine ⟨?_, ?_, ?_⟩
        · rw [hframe "data",
            fsWrite_ne _ _ _ _ (by simp),
            fsWrite_ne _ _ _ _ (by simp),
            fsWrite_self]
          exact hagree _ hsrcmem "data"
        · rw [hframe "log.lammps",
            fsWrite_ne _ _ _ _ (by simp),
            fsWrite_self,
            fsWrite_ne _ _ _ _ (by simp [hsrcdst])]
          exact hagree _ hsrcmem "log.lammps"
        · rw [hframe "from.dir", fsWrite_self]
      · exact copy_results_copies fl fs0 rest _ hagree3 hnodup' hdisj'
          hrange' pr hpr' hprb

/-- C7: in the result-reuse pass of `refine_task`, every refined task
with a non-sentinel back-map entry receives copies of the source task's
`data` and `log.lammps` files and a `from.dir` record naming the source
task directory; refined tasks with the sentinel entry are left untouched;
and no file of the originating stage's task directories is ever
modified. -/
theorem c7_refine_copy (fs0 : FS) (fl : List String)
    (pairs : List (String × Int))
    (hnodup : (pairs.map Prod.fst).Nodup)
    (hdisj : ∀ pr ∈ pairs, pr.1 ∉ fl)
    (hrange : ∀ pr ∈ pairs, 0 ≤ pr.2 → pr.2.toNat < fl.length) :
    (∀ pr ∈ pairs, 0 ≤ pr.2 →
      copy_results fl pairs fs0 (pr.1, "data")
          = fs0 (fl.getD pr.2.toNat "", "data") ∧
      copy_results fl pairs fs0 (pr.1, "log.lammps")
          = fs0 (fl.getD pr.2.toNat "", "log.lammps") ∧
      copy_results fl pairs fs0 (pr.1, "from.dir")
          = some (fl.getD pr.2.toNat "")) ∧
    (∀ pr ∈ pairs, pr.2 < 0 → ∀ f,
      copy_results fl pairs fs0 (pr.1, f) = fs0 (pr.1, f)) ∧
    (∀ d ∈ fl, ∀ f, copy_results fl pairs fs0 (d, f) = fs0 (d, f)) := by
  refine ⟨?_, ?_, ?_⟩
  · exact copy_results_copies fl fs0 pairs fs0 (fun _ _ _ => rfl)
      hnodup hdisj hrange
  · intro pr hpr hneg f
    refine copy_results_frame fl pairs fs0 pr.1 f ?_
    intro q hq hq0 hEq
    have hqpr : q ≠ pr := by
      intro h
      subst h
      omega
    have := List.inj_on_of_nodup_map hnodup hpr hq hEq
    exact hqpr this.symm
  · intro d hd f
    refine copy_results_frame fl pairs fs0 d f ?_
    intro q hq _ hEq
    exact hdisj q hq (hEq ▸ hd)

/-- C7 witness: with one source directory `src0` holding `data` and
`log.lammps`, and refined tasks `t0` (back-mapped to source 0) and `t1`
(sentinel), the hypotheses of `c7_refine_copy` hold and the copy pass
transfers the source contents into `t0` while leaving everything else
alone; in particular the copied `data` in `t0` is the source value. -/
theorem c7_refine_copy_witness :
    ((([("t0", (0 : Int)), ("t1", -1)].map Prod.fst).Nodup) ∧
     (∀ pr ∈ [("t0", (0 : Int)), ("t1", -1)], pr.1 ∉ ["src0"]) ∧
     (∀ pr ∈ [("t0", (0 : Int)), ("t1", -1)], 0 ≤ pr.2 →
        pr.2.toNat < (["src0"] : List String).length)) ∧
    ((∀ pr ∈ [("t0", (0 : Int)), ("t1", -1)], 0 ≤ pr.2 →
      copy_results ["src0"] [("t0", (0 : Int)), ("t1", -1)] mock_fs
          (pr.1, "data")
        = mock_fs ((["src0"] : List String).getD pr.2.toNat "", "data") ∧
      copy_results ["src0"] [("t0", (0 : Int)), ("t1", -1)] mock_fs
          (pr.1, "log.lammps")
        = mock_fs ((["src0"] : List String).getD pr.2.toNat "",
            "log.lammps") ∧
      copy_results ["src0"] [("t0", (0 : Int)), ("t1", -1)] mock_fs
          (pr.1, "from.dir")
        = some ((["src0"] : List String).getD pr.2.toNat "")) ∧
    (∀ pr ∈ [("t0", (0 : Int)), ("t1", -1)], pr.2 < 0 → ∀ f,
      copy_results ["src0"] [("t0", (0 : Int)), ("t1", -1)] mock_fs
          (pr.1, f) = mock_fs (pr.1, f)) ∧
    (∀ d ∈ (["src0"] : List String), ∀ f,
      copy_results ["src0"] [("t0", (0 : Int)), ("t1", -1)] mock_fs
          (d, f) = mock_fs (d, f))) ∧
    copy_results ["src0"] [("t0", (0 : Int)), ("t1", -1)] mock_fs
        ("t0", "data") = some "D" := by
  have hmain := c7_refine_copy mock_fs ["src0"]
    [("t0", (0 : Int)), ("t1", -1)] (by decide) (by decide) (by decide)
  refine ⟨⟨by decide, by decide, by decide⟩, hmain, ?_⟩
  have h0 := (hmain.1 ("t0", (0 : Int))
    (List.mem_cons_self _ _) (by decide)).1
  rw [h0]
  rfl

end Hti
